import Mathlib

/-!
Shallow embedding of the structured-random-features repository
(`src/estimator.py`, the "legacy" module, and `src/new_version/estimator.py`,
the "new" module) and proofs about the claims of its specification.

Conventions of the embedding:
* numpy 2-D arrays become `List (List ℚ)` (row major); machine floats become
  exact rationals, so "bit-identical" becomes equality of rationals;
* numpy's global Mersenne-Twister RNG is an external library.  It is modelled
  as a global state `GState` (a seed value and a stream position, plus an
  entropy counter used when `np.random.seed(None)` reseeds from the OS), and
  the actual sampled values are an arbitrary stream `F : Nat → Nat → ℚ`
  (seed → position → value) that every theorem quantifies over;
* other external numeric-library collaborators declared out of scope by the
  specification (scipy's DFT matrix, `np.linalg.cholesky`, `np.sqrt` inside
  `np.std`, `np.exp`, sklearn classifiers) are passed in as explicit function
  parameters, so every definition stays computable;
* Python exceptions become `Except PyErr`; mutation of `self` becomes explicit
  state passing, and mutations performed before an exception is raised persist
  in the returned state, as they do in Python.
-/

namespace StructuredRF

/-- Python exception classes relevant to this repository.  `notFitted` stands
for sklearn's `NotFittedError` and for the `AttributeError` raised when an
attribute that only `fit` creates is accessed (sklearn's `NotFittedError` is a
subclass of `AttributeError`). -/
inductive PyErr
  | notFitted
  | valueError
  | typeError
  | broadcastError
deriving Repr, DecidableEq

/-- The state of numpy's global RNG: current seed `sd`, position `pos` in the
stream of draws for that seed, and an OS-entropy counter `ent` consumed by
`np.random.seed(None)`. -/
structure GState where
  sd : Nat
  pos : Nat
  ent : Nat
deriving Repr, DecidableEq

/-- The value stream of the external RNG: `F seed idx` is the `idx`-th value
numpy's generator produces after being seeded with `seed`. -/
abbrev Stream' := Nat → Nat → ℚ

/-- Advance the stream position by `n` draws. -/
def advanceBy (g : GState) (n : Nat) : GState := ⟨g.sd, g.pos + n, g.ent⟩

/-- `np.random.seed(rs)`: an integer seed resets the stream; `None` reseeds
from fresh OS entropy. -/
def npseedO : Option Nat → GState → GState
  | some k, g => ⟨k, 0, g.ent⟩
  | none, g => ⟨g.ent, 0, g.ent + 1⟩

/-- Map a raw stream value to a nonnegative integer below `n`
(`np.random.randint(n)`). -/
def natDraw (q : ℚ) (n : Nat) : Nat := (⌊q⌋).toNat % n

/-! ### Matrices as lists of rows -/

abbrev Mat := List (List ℚ)

/-- Dot product of two equally long vectors. -/
def dot (u v : List ℚ) : ℚ := (List.zipWith (· * ·) u v).sum

/-- Number of columns of a (rectangular) matrix. -/
def colsOf (A : Mat) : Nat := (A.headD []).length

/-- The `j`-th column of `A`. -/
def colOf (A : Mat) (j : Nat) : List ℚ := A.map (fun r => r.getD j 0)

/-- Plain matrix product `A @ B`. -/
def mulMat (A B : Mat) : Mat :=
  A.map (fun r => (List.range (colsOf B)).map (fun j => dot r (colOf B j)))

/-- `A @ B.T`, i.e. the product against the rows of `B` directly. -/
def matmulT (A B : Mat) : Mat := A.map (fun r => B.map (fun w => dot r w))

/-- Transpose of a matrix with `n` columns. -/
def transposeMat (A : Mat) (n : Nat) : Mat := (List.range n).map (fun j => colOf A j)

/-- `np.eye(N, N)`. -/
def eyeQ (N : Nat) : Mat :=
  (List.range N).map (fun i => (List.range N).map (fun j => if i = j then (1 : ℚ) else 0))

/-- Scalar multiple of a matrix. -/
def smulMat (c : ℚ) (A : Mat) : Mat := A.map (List.map (c * ·))

/-- `A.shape == (m, n)`, as a boolean. -/
def hasShapeB (A : Mat) (m n : Nat) : Bool :=
  A.length == m && A.all (fun r => r.length == n)

/-- Elementwise addition with numpy's 2-D broadcasting rule: two dimensions
are compatible when they are equal or one of them is 1; otherwise the
operation raises a broadcast `ValueError`. -/
def addBroadcast (A B : Mat) : Except PyErr Mat :=
  let ra := A.length; let ca := colsOf A
  let rb := B.length; let cb := colsOf B
  if (ra == rb || ra == 1 || rb == 1) && (ca == cb || ca == 1 || cb == 1) then
    let bidx := fun (i r : Nat) => if r == 1 then 0 else i
    .ok ((List.range (max ra rb)).map (fun i => (List.range (max ca cb)).map (fun j =>
      ((A.getD (bidx i ra) []).getD (bidx j ca) 0) + ((B.getD (bidx i rb) []).getD (bidx j cb) 0))))
  else .error .broadcastError

/-! ### Complex matrices (for the spectral generators) -/

abbrev Cplx := ℚ × ℚ
abbrev CMat := List (List Cplx)

def cmul (a b : Cplx) : Cplx := (a.1 * b.1 - a.2 * b.2, a.1 * b.2 + a.2 * b.1)

def csum (l : List Cplx) : Cplx := l.foldr (fun a b => (a.1 + b.1, a.2 + b.2)) (0, 0)

def ccolsOf (A : CMat) : Nat := (A.headD []).length

def ccolOf (A : CMat) (j : Nat) : List Cplx := A.map (fun r => r.getD j (0, 0))

/-- Complex matrix product `A @ B`. -/
def cMulMat (A B : CMat) : CMat :=
  A.map (fun r => (List.range (ccolsOf B)).map (fun j => csum (List.zipWith cmul r (ccolOf B j))))

/-- `.real` of a complex matrix. -/
def realPart (A : CMat) : Mat := A.map (List.map Prod.fst)

/-- `np.std(row)` (population standard deviation), with the square root
supplied by the external numeric library as `sqrtQ`. -/
def stdRow (sqrtQ : ℚ → ℚ) (r : List ℚ) : ℚ :=
  sqrtQ ((r.map (fun x => (x - r.sum / (r.length : ℚ)) ^ 2)).sum / (r.length : ℚ))

/-! ### Legacy module: `src/estimator.py`, `random_feature_matrix` -/

/-- The `weights` argument of the legacy `random_feature_matrix`: the strings
`'unimodal'` and `'white noise'`, the value `None` (identity branch), or a
function handle. -/
inductive LegacyWeights
  | unimodal
  | whiteNoise
  | identity
  | custom (f : Nat → Nat → Mat)

/-- `random_feature_matrix(M, N, weights, rand_seed)` of the legacy module.
If `rand_seed` is `None` a seed below 1000 is drawn from the current global
RNG state; then `np.random.seed` is called and the branch for `weights`
builds `J`; the function returns `J.T`. -/
def random_feature_matrix (F : Stream') (expQ : ℚ → ℚ) (M N : Nat) (w : LegacyWeights)
    (rs : Option Nat) (g : GState) : Mat × GState :=
  let sg0 : Nat × GState := match rs with
    | some k => (k, g)
    | none => (natDraw (F g.sd g.pos) 1000, advanceBy g 1)
  let g1 : GState := ⟨sg0.1, 0, sg0.2.ent⟩
  match w with
  | .unimodal =>
      -- mu ~ Unif(0, N), sigma ~ Unif(0.1, N/4), scale ~ randint(1, 20)
      let mu := fun (i : Nat) => (N : ℚ) * F g1.sd (g1.pos + i)
      let sg := fun (i : Nat) => (1 / 10 : ℚ) + ((N : ℚ) / 4 - 1 / 10) * F g1.sd (g1.pos + M + i)
      let sc := fun (i : Nat) => ((1 + natDraw (F g1.sd (g1.pos + 2 * M + i)) 19 : Nat) : ℚ)
      let J : Mat := (List.range M).map (fun i => (List.range N).map (fun kk =>
        expQ (-(|mu i - (kk : ℚ)| ^ 2) / (2 * sg i ^ 2)) * sc i))
      (transposeMat J N, advanceBy g1 (3 * M))
  | .whiteNoise =>
      let J : Mat := (List.range M).map (fun i => (List.range N).map (fun j =>
        F g1.sd (g1.pos + i * N + j)))
      (transposeMat J N, advanceBy g1 (M * N))
  | .identity => (transposeMat (eyeQ N) N, g1)
  | .custom f =>
      let J := f M N
      (transposeMat J (colsOf J), g1)

/-! ### List helper lemmas -/

/-- `getD` on a map over `List.range`. -/
theorem getD_map_range {α : Type} (f : Nat → α) (n j : Nat) (d : α) (h : j < n) :
    (((List.range n).map f).getD j d) = f j := by
  rw [List.getD_eq_getElem?_getD, List.getElem?_map, List.getElem?_range h]
  rfl

/-- Mapping a function over the elements fetched by index equals mapping over
the list. -/
theorem map_range_getD {α β : Type} (J : List α) (gf : α → β) (d : α) :
    (List.range J.length).map (fun j => gf (J.getD j d)) = J.map gf := by
  induction J with
  | nil => rfl
  | cons hd tl ih =>
      simp only [List.length_cons, List.range_succ_eq_map, List.map_cons, List.map_map]
      refine congrArg₂ _ (by simp) ?_
      rw [← ih]
      refine List.map_congr_left (fun j _ => ?_)
      simp [Function.comp, List.getD_cons_succ]

/-- Reading every index of a list of known length reproduces the list. -/
theorem range_getD_eq_self {α : Type} (r : List α) (d : α) :
    (List.range r.length).map (fun j => r.getD j d) = r := by
  simpa using map_range_getD r id d

/-- The head of a non-trivial mapped range. -/
theorem headD_map_range {α : Type} (f : Nat → α) (n : Nat) (d : α) (h : 0 < n) :
    ((List.range n).map f).headD d = f 0 := by
  obtain ⟨m, rfl⟩ := Nat.exists_eq_add_of_lt h
  simp [List.range_succ_eq_map]

/-- The transpose of the identity matrix is itself. -/
theorem transpose_eyeQ (N : Nat) : transposeMat (eyeQ N) N = eyeQ N := by
  unfold transposeMat eyeQ colOf
  refine List.map_congr_left (fun j hj => ?_)
  rw [List.mem_range] at hj
  rw [List.map_map]
  refine List.map_congr_left (fun i _ => ?_)
  simp only [Function.comp_apply]
  rw [getD_map_range _ _ _ _ hj]
  simp [eq_comm]

/-! ### New module: `src/new_version/estimator.py`, weight generators -/

/-- `classical_weights(M, N, random_state)`: seed the global RNG, draw an
`(M, N, 2)` block of standard normals viewed as `M × N` complex numbers,
multiply by scipy's `N × N` DFT matrix (the external `dftM`), keep the real
part, and normalize every row by its standard deviation. -/
def classical_weights (F : Stream') (sqrtQ : ℚ → ℚ) (dftM : Nat → CMat)
    (M N : Nat) (rs : Option Nat) (g : GState) : Mat × GState :=
  let g1 := npseedO rs g
  let rand : CMat := (List.range M).map (fun i => (List.range N).map (fun j =>
    (F g1.sd (g1.pos + 2 * (i * N + j)), F g1.sd (g1.pos + 2 * (i * N + j) + 1))))
  let W0 := realPart (cMulMat rand (dftM N))
  let W := W0.map (fun r => r.map (fun x => x / stdRow sqrtQ r))
  (W, advanceBy g1 (2 * (M * N)))

/-- The shape `np.squeeze` leaves: every axis of length 1 is removed. -/
def squeezeDims (dims : List Nat) : List Nat := dims.filter (fun d => d ≠ 1)

/-- Whether a numpy value of shape `src` can be broadcast-assigned into a
destination of shape `dst`: axes are aligned from the right, and each source
axis must equal the destination axis or be 1. -/
def bcastInto (src dst : List Nat) : Bool :=
  src.length ≤ dst.length &&
    (List.zip src.reverse dst.reverse).all (fun p => p.1 == p.2 || p.1 == 1)

/-- `haltere_inspired_weights(M, N, lowcut, highcut, random_state)`: like
`classical_weights` but the complex noise is zero outside the Fourier band
`[lowcut, highcut)`.  The drawn noise has shape `(M, B, 1)` after the complex
view and is passed through a bare `.squeeze()` before the slice assignment
`rand[:, lowcut:highcut] = ...`; when the squeezed shape cannot be broadcast
into the `(M, B)` slice — exactly the band-width-1 case with `M ≠ 1`, where
the value collapses to shape `(M,)` — the assignment raises a broadcast
`ValueError`, the `2·M·B` draws having already been consumed. -/
def haltere_inspired_weights (F : Stream') (sqrtQ : ℚ → ℚ) (dftM : Nat → CMat)
    (M N lowcut highcut : Nat) (rs : Option Nat) (g : GState) :
    Except PyErr Mat × GState :=
  let g1 := npseedO rs g
  let B := highcut - lowcut
  if bcastInto (squeezeDims [M, B, 1]) [M, B] then
    let rand : CMat := (List.range M).map (fun i => (List.range N).map (fun j =>
      if lowcut ≤ j ∧ j < highcut then
        (F g1.sd (g1.pos + 2 * (i * B + (j - lowcut))),
         F g1.sd (g1.pos + 2 * (i * B + (j - lowcut)) + 1))
      else (0, 0)))
    let W0 := realPart (cMulMat rand (dftM N))
    let W := W0.map (fun r => r.map (fun x => x / stdRow sqrtQ r))
    (.ok W, advanceBy g1 (2 * (M * B)))
  else (.error .broadcastError, advanceBy g1 (2 * (M * B)))

/-- Largest `j ≤ k` with `j * j ≤ n` (`0` if none): a structurally recursive
integer square root used so that the kernel can evaluate it. -/
def natSqrtAux : Nat → Nat → Nat
  | 0, _ => 0
  | k + 1, n => if (k + 1) * (k + 1) ≤ n then k + 1 else natSqrtAux k n

/-- The floor integer square root, `int(np.sqrt(n))`. -/
def natSqrt (n : Nat) : Nat := natSqrtAux n n

theorem natSqrtAux_eq (n : Nat) : ∀ k, Nat.sqrt n ≤ k → natSqrtAux k n = Nat.sqrt n := by
  intro k
  induction k with
  | zero => intro h; unfold natSqrtAux; omega
  | succ k ih =>
      intro h
      unfold natSqrtAux
      by_cases hk : (k + 1) * (k + 1) ≤ n
      · rw [if_pos hk]
        have := Nat.le_sqrt.mpr hk
        omega
      · rw [if_neg hk]
        refine ih ?_
        have := Nat.sqrt_lt.mpr (by omega : n < (k + 1) * (k + 1))
        omega

/-- The structural square root agrees with `Nat.sqrt`. -/
theorem natSqrt_eq_sqrt (n : Nat) : natSqrt n = Nat.sqrt n :=
  natSqrtAux_eq n n (Nat.sqrt_le_self n)

/-- Number of elements of `np.arange(np.sqrt(N))`: `⌈√N⌉`, which is `√N` for
a perfect square and `Nat.sqrt N + 1` otherwise. -/
def gridSide (N : Nat) : Nat :=
  if natSqrt N * natSqrt N = N then natSqrt N else natSqrt N + 1

/-- The flattened `meshgrid` points `(i, j)` in row-major order. -/
def gridPts (N : Nat) : List (ℚ × ℚ) :=
  (List.range (gridSide N * gridSide N)).map
    (fun t => (((t / gridSide N : Nat) : ℚ), ((t % gridSide N : Nat) : ℚ)))

/-- Squared euclidean distance of two grid points. -/
def sqDist (p q : ℚ × ℚ) : ℚ := (p.1 - q.1) ^ 2 + (p.2 - q.2) ^ 2

/-- The jitter-free Gaussian-process kernel over the grid: entry `(p, q)` is
`10·exp(-‖p-q‖²/2l²)·exp(-‖q-m‖²/2t²)·exp(-‖p-m‖²/2t²)`. -/
def V1_K0 (expQ : ℚ → ℚ) (N : Nat) (t l : ℚ) (m : ℚ × ℚ) : Mat :=
  (gridPts N).map (fun p => (gridPts N).map (fun q =>
    10 * expQ (-(sqDist p q) / (2 * l ^ 2)) * expQ (-(sqDist q m) / (2 * t ^ 2)) *
      expQ (-(sqDist p m) / (2 * t ^ 2))))

/-- `V1_inspired_kernel_matrix(N, t, l, m)`: the kernel `V1_K0` plus the
jitter `1e-5 * np.eye(N)`, added with numpy broadcasting (which raises when
the grid has more than `N` points). -/
def V1_inspired_kernel_matrix (expQ : ℚ → ℚ) (N : Nat) (t l : ℚ) (m : ℚ × ℚ) :
    Except PyErr Mat :=
  addBroadcast (V1_K0 expQ N t l m) (smulMat (1 / 100000) (eyeQ N))

/-- `V1_inspired_weights_for_center(N, t, l, m, random_state)`: reseed the
global RNG, build the kernel, take its (external) Cholesky factor `L`, and
return `L @ randn(N)`. -/
def V1_inspired_weights_for_center (F : Stream') (expQ : ℚ → ℚ) (cholF : Mat → Mat)
    (N : Nat) (t l : ℚ) (m : ℚ × ℚ) (rs : Option Nat) (g : GState) :
    Except PyErr (List ℚ) × GState :=
  let g1 := npseedO rs g
  match V1_inspired_kernel_matrix expQ N t l m with
  | .error e => (.error e, g1)
  | .ok K =>
      let L := cholF K
      let z := (List.range N).map (fun i => F g1.sd (g1.pos + i))
      (.ok (L.map (fun r => dot r z)), advanceBy g1 N)

/-- The centers `np.random.randint(int(np.sqrt(N)), size=(M, 2))` drawn from
RNG state `g1` (row `i` uses draws `2i` and `2i+1`). -/
def V1_centers (F : Stream') (M N : Nat) (g1 : GState) : List (ℚ × ℚ) :=
  (List.range M).map (fun i =>
    (((natDraw (F g1.sd (g1.pos + 2 * i)) (natSqrt N) : Nat) : ℚ),
     ((natDraw (F g1.sd (g1.pos + 2 * i + 1)) (natSqrt N) : Nat) : ℚ)))

/-- One iteration of the `for m in centers` loop of `V1_inspired_weights`:
a previous exception aborts the loop, otherwise the row for this center is
stacked below the accumulated matrix. -/
def V1_step (F : Stream') (expQ : ℚ → ℚ) (cholF : Mat → Mat) (N : Nat) (t l : ℚ)
    (rs : Option Nat) : Except PyErr Mat × GState → ℚ × ℚ → Except PyErr Mat × GState
  | (.error e, g), _ => (.error e, g)
  | (.ok rows, g), m =>
      match V1_inspired_weights_for_center F expQ cholF N t l m rs g with
      | (.error e, g') => (.error e, g')
      | (.ok w, g') => (.ok (rows ++ [w]), g')

/-- `V1_inspired_weights(M, N, t, l, random_state)`: seed the global RNG, draw
the `M` centers, and stack one Gaussian-process sample per center (each call
to `V1_inspired_weights_for_center` reseeds with the same `random_state`). -/
def V1_inspired_weights (F : Stream') (expQ : ℚ → ℚ) (cholF : Mat → Mat)
    (M N : Nat) (t l : ℚ) (rs : Option Nat) (g : GState) : Except PyErr Mat × GState :=
  let g1 := npseedO rs g
  let centers := V1_centers F M N g1
  let g2 := advanceBy g1 (2 * M)
  centers.foldl (V1_step F expQ cholF N t l rs) (.ok [], g2)

/-! ### Nonlinearities (both modules) -/

/-- `relu(x, thrsh) = np.maximum(x, thrsh)`. -/
def relu (x : ℚ) (thrsh : ℚ := 0) : ℚ := max x thrsh

/-- `poly(x, power) = np.power(x, power)`. -/
def poly (x : ℚ) (power : Nat := 2) : ℚ := x ^ power

/-! ### The injected sklearn-style linear classifier (external collaborator)

The inner classifier is consumed only through its `fit`/`predict`/`score`
contract.  `validateB` is its input validation inside `fit` (sklearn rejects
`X`/`y` with inconsistent sample counts); the behaviour functions compute the
learned coefficients and the predictions/score from the data the classifier
was fitted on. -/

structure SkClf where
  validateB : Mat → List ℚ → Bool
  coefF : Mat → List ℚ → Mat
  interceptF : Mat → List ℚ → List ℚ
  predictF : Mat → List ℚ → Mat → List ℚ
  scoreF : Mat → List ℚ → Mat → List ℚ → ℚ

/-! ### New module: `RFClassifier` of `src/new_version/estimator.py` -/

/-- Constructor arguments of the new-module `RFClassifier`.  `weightFun`
closes over the forwarded `kwargs` and threads the global RNG. -/
structure RFConfig where
  width : Nat
  weightFun : Nat → Nat → Option Nat → GState → Mat × GState
  bias : ℚ
  nonlinearity : ℚ → ℚ
  clf : SkClf
  randomState : Option Nat

/-- The mutable attributes `fit` creates on the new-module estimator; a fresh
instance has none of them. -/
structure RFState where
  W_ : Option Mat
  b_ : Option ℚ
  H_ : Option Mat
  coef_ : Option Mat
  intercept_ : Option (List ℚ)
  clfFit : Option (Mat × List ℚ)

/-- A freshly constructed (never fitted) new-module estimator. -/
def freshRF : RFState := ⟨none, none, none, none, none, none⟩

/-- The feature map `nonlinearity(np.dot(X, W.T) + b)` of the new module. -/
def rfMap (nl : ℚ → ℚ) (X W : Mat) (b : ℚ) : Mat :=
  (matmulT X W).map (fun r => r.map (fun x => nl (x + b)))

/-- `RFClassifier._fit_transform(X)`: generate `W_` from the weight function,
store the bias, and store `H_ = nonlinearity(X @ W_.T + b_)`. -/
def rfFitTransform (cfg : RFConfig) (s : RFState) (X : Mat) (g : GState) :
    RFState × GState :=
  let n := colsOf X
  let Wg := cfg.weightFun cfg.width n cfg.randomState g
  let H := rfMap cfg.nonlinearity X Wg.1 cfg.bias
  ({ s with W_ := some Wg.1, b_ := some cfg.bias, H_ := some H }, Wg.2)

/-- `RFClassifier.fit(X, y)` of the new module: `_fit_transform`, then the
inner classifier is fitted on `H_` and its `coef_`/`intercept_` are copied.
There is no sample-count check of its own; if the inner classifier rejects the
data the attributes set by `_fit_transform` persist (Python mutations survive
the exception). -/
def rfFit (cfg : RFConfig) (s : RFState) (X : Mat) (y : List ℚ) (g : GState) :
    RFState × GState × Except PyErr Unit :=
  let sg := rfFitTransform cfg s X g
  let H := sg.1.H_.getD []
  if cfg.clf.validateB H y then
    let s2 := { sg.1 with clfFit := some (H, y), coef_ := some (cfg.clf.coefF H y), intercept_ := some (cfg.clf.interceptF H y) }
    (s2, sg.2, .ok ())
  else (sg.1, sg.2, .error .valueError)

/-- `RFClassifier.transform(X)` of the new module: `check_is_fitted` on
`W_`, `b_`, then `nonlinearity(np.dot(X, W_.T) + b_)`. -/
def rfTransform (cfg : RFConfig) (s : RFState) (X : Mat) : Except PyErr Mat :=
  match s.W_, s.b_ with
  | some W, some b => .ok (rfMap cfg.nonlinearity X W b)
  | _, _ => .error .notFitted

/-- `RFClassifier.score(X, y)` of the new module: `transform`, then
`check_is_fitted` on `coef_`, `intercept_`, then the inner classifier's
score. -/
def rfScore (cfg : RFConfig) (s : RFState) (X : Mat) (y : List ℚ) : Except PyErr ℚ :=
  match rfTransform cfg s X with
  | .error e => .error e
  | .ok H =>
      match s.coef_, s.intercept_ with
      | some _, some _ =>
          match s.clfFit with
          | some (Ht, yt) => .ok (cfg.clf.scoreF Ht yt H y)
          | none => .error .notFitted
      | _, _ => .error .notFitted

/-- The new-module `RFClassifier` defines no `predict` method at all: a call
to `predict` fails to resolve the attribute, i.e. raises `AttributeError`
(the class of sklearn's not-fitted errors), on any state and input. -/
def rfPredict (_cfg : RFConfig) (_s : RFState) (_X : Mat) : Except PyErr (List ℚ) :=
  .error .notFitted

/-! ### Legacy module: `RFClassifier` of `src/estimator.py` -/

/-- The `self.clf` slot of the legacy estimator: `None`, a classifier class
(factory, closing over `clf_args`), or — after a fit — a constructed
instance together with the data it was fitted on. -/
inductive ClfSlot
  | noClf
  | factory (mk : SkClf)
  | inst (c : SkClf) (fitted : Option (Mat × List ℚ))

/-- Constructor arguments of the legacy `RFClassifier` that `fit` never
mutates (`seed` and `clf` are mutable and live in `LegacyState`). -/
structure LegacyConfig where
  width : Nat
  weights : LegacyWeights
  nonlinearity : ℚ → ℚ
  weightFun : Option (Nat → Nat → Mat)

/-- The mutable attributes of the legacy estimator. -/
structure LegacyState where
  seed : Option Nat
  clfS : ClfSlot
  W_ : Option Mat
  fitted : Bool

/-- A freshly constructed legacy estimator with the given `seed` and `clf`
arguments. -/
def freshLegacy (seed : Option Nat) (clfS : ClfSlot) : LegacyState :=
  ⟨seed, clfS, none, false⟩

/-- The legacy feature map `nonlinearity(X @ W_)` (the stored `W_` is already
the transposed generator output; there is no bias). -/
def legacyMap (nl : ℚ → ℚ) (X W : Mat) : Mat := (mulMat X W).map (List.map nl)

/-- `RFClassifier.fit(X, y)` of the legacy module: check the sample counts,
draw a seed if `self.seed` is `None`, construct the inner classifier
(`LinearSVC` when `self.clf` is `None`; otherwise *call* `self.clf` — a
`TypeError` when it already holds a constructed instance), generate `W_`, and
fit the inner classifier on `nonlinearity(X @ W_)`. -/
def legacyFit (F : Stream') (expQ : ℚ → ℚ) (mkLinearSVC : Nat → SkClf)
    (cfg : LegacyConfig) (s : LegacyState) (X : Mat) (y : List ℚ) (g : GState) :
    LegacyState × GState × Except PyErr Unit :=
  if X.length ≠ y.length then (s, g, .error .valueError)
  else
    let n := colsOf X
    let svg : Nat × GState := match s.seed with
      | some k => (k, g)
      | none => (natDraw (F g.sd g.pos) 1000, advanceBy g 1)
    let s1 := { s with seed := some svg.1 }
    match s1.clfS with
    | .inst _ _ => (s1, svg.2, .error .typeError)
    | slot =>
        let c : SkClf := match slot with
          | .noClf => mkLinearSVC svg.1
          | .factory mk => mk
          | .inst c _ => c
        let Wg : Mat × GState := match cfg.weightFun with
          | some f => (f cfg.width n, svg.2)
          | none => random_feature_matrix F expQ cfg.width n cfg.weights (some svg.1) svg.2
        let H := legacyMap cfg.nonlinearity X Wg.1
        if c.validateB H y then
          ({ s1 with clfS := .inst c (some (H, y)), W_ := some Wg.1, fitted := true },
            Wg.2, .ok ())
        else
          ({ s1 with clfS := .inst c none, W_ := some Wg.1 }, Wg.2, .error .valueError)

/-- `RFClassifier.transform(X)` of the legacy module: accessing the missing
`W_` on an unfitted instance is an `AttributeError`. -/
def legacyTransform (cfg : LegacyConfig) (s : LegacyState) (X : Mat) :
    Except PyErr Mat :=
  match s.W_ with
  | none => .error .notFitted
  | some W => .ok (legacyMap cfg.nonlinearity X W)

/-- `RFClassifier.predict(X)` of the legacy module. -/
def legacyPredict (cfg : LegacyConfig) (s : LegacyState) (X : Mat) :
    Except PyErr (List ℚ) :=
  match s.W_ with
  | none => .error .notFitted
  | some W =>
      match s.clfS with
      | .inst c (some fd) => .ok (c.predictF fd.1 fd.2 (legacyMap cfg.nonlinearity X W))
      | _ => .error .notFitted

/-- `RFClassifier.score(X, y)` of the legacy module. -/
def legacyScore (cfg : LegacyConfig) (s : LegacyState) (X : Mat) (y : List ℚ) :
    Except PyErr ℚ :=
  match s.W_ with
  | none => .error .notFitted
  | some W =>
      match s.clfS with
      | .inst c (some fd) => .ok (c.scoreF fd.1 fd.2 (legacyMap cfg.nonlinearity X W) y)
      | _ => .error .notFitted

/-! ### More helper lemmas -/

/-- `getD` through a `map`, with independent defaults, at an in-bounds index. -/
theorem getD_map_of_lt {α β : Type} (l : List α) (f : α → β) (i : Nat) (d : α) (d' : β)
    (h : i < l.length) : (l.map f).getD i d' = f (l.getD i d) := by
  rw [List.getD_eq_getElem _ _ (by simpa using h), List.getD_eq_getElem _ _ h,
    List.getElem_map]

/-- The head of a nonempty list of rows of constant length `n` has length `n`. -/
theorem headD_length {α : Type} (A : List (List α)) (n : Nat) (h0 : 0 < A.length)
    (hr : ∀ r ∈ A, r.length = n) : (A.headD []).length = n := by
  cases A with
  | nil => simp at h0
  | cons r rs => exact hr r (List.mem_cons_self r rs)

/-- Unfolding of the boolean shape predicate. -/
theorem hasShapeB_iff (A : Mat) (m n : Nat) :
    hasShapeB A m n = true ↔ A.length = m ∧ ∀ r ∈ A, r.length = n := by
  simp [hasShapeB, List.all_eq_true]

/-- A transposed matrix with `m` rows has shape `(n, m)` whatever the row
lengths were. -/
theorem hasShapeB_transposeMat (A : Mat) (m n : Nat) (hA : A.length = m) :
    hasShapeB (transposeMat A n) n m = true := by
  rw [hasShapeB_iff]
  constructor
  · simp [transposeMat]
  · intro r hr
    simp only [transposeMat, List.mem_map] at hr
    obtain ⟨j, -, rfl⟩ := hr
    simp [colOf, hA]

/-- Multiplying by the stored transpose equals multiplying against the rows of
the original matrix: `X @ J.T = matmulT X J` for a rectangular `J`. -/
theorem mulMat_transposeMat (X J : Mat) (M N : Nat) (hN : 0 < N)
    (hs : hasShapeB J M N = true) : mulMat X (transposeMat J N) = matmulT X J := by
  rw [hasShapeB_iff] at hs
  obtain ⟨hlen, hrows⟩ := hs
  have hcols : colsOf (transposeMat J N) = M := by
    unfold colsOf transposeMat
    rw [headD_map_range _ _ _ hN]
    simp [colOf, hlen]
  unfold mulMat matmulT
  refine List.map_congr_left (fun r _ => ?_)
  rw [hcols, ← hlen, ← map_range_getD J (fun row => dot r row) []]
  refine List.map_congr_left (fun j hj => ?_)
  rw [List.mem_range] at hj
  refine congrArg _ ?_
  have hmem : J.getD j [] ∈ J := by
    rw [List.getD_eq_getElem J [] hj]
    exact List.getElem_mem _
  have hrowlen : (J.getD j []).length = N := hrows _ hmem
  calc colOf (transposeMat J N) j
      = (List.range N).map (fun j' => (J.getD j []).getD j' 0) := by
        unfold colOf transposeMat
        rw [List.map_map]
        refine List.map_congr_left (fun j' _ => ?_)
        simp only [Function.comp_apply]
        exact getD_map_of_lt J (fun row => row.getD j' 0) j [] 0 hj
    _ = J.getD j [] := by
        conv_lhs => rw [← hrowlen]
        exact range_getD_eq_self _ 0

/-! ### Concrete instances used by witnesses and counterexamples -/

/-- A constant value stream for the external RNG. -/
def FEx : Stream' := fun _ _ => 0

/-- An initial global RNG state. -/
def gEx : GState := ⟨0, 0, 0⟩

/-- A minimal injected classifier: it validates that the sample counts of `H`
and `y` agree, as every sklearn classifier does. -/
def clfEx : SkClf :=
  ⟨fun H y => H.length == y.length, fun _ _ => [[0]], fun _ _ => [0],
   fun _ _ _ => [], fun _ _ _ _ => 1⟩

/-- A concrete all-ones weight function of the declared `(width, n_features)`
shape. -/
def wfEx : Nat → Nat → Option Nat → GState → Mat × GState :=
  fun M N _ g => ((List.range M).map (fun _ => (List.range N).map (fun _ => (1 : ℚ))), g)

/-- A concrete new-module configuration. -/
def cfgEx : RFConfig := ⟨1, wfEx, 0, id, clfEx, some 0⟩

/-- A concrete legacy configuration (white-noise weights, no custom weight
function). -/
def legacyCfgEx : LegacyConfig := ⟨1, .whiteNoise, id, none⟩

/-- A stand-in for the external `LinearSVC` constructor. -/
def mkSVCEx : Nat → SkClf := fun _ => clfEx

def XEx : Mat := [[1]]

def yEx : List ℚ := [0]

/-! ### C8 — the legacy identity generator -/

/-- C8: for `width == n_features`, the legacy `random_feature_matrix` with
`weights=None` returns the `n_features × n_features` identity matrix (the
identity branch builds `np.eye(N, N)` and transposing it is a no-op). -/
theorem C8_identity_generator (F : Stream') (expQ : ℚ → ℚ) (N : Nat)
    (rs : Option Nat) (g : GState) :
    (random_feature_matrix F expQ N N .identity rs g).1 = eyeQ N := by
  cases rs <;> simpa [random_feature_matrix] using transpose_eyeQ N

/-! ### C3 — the not-fitted guard -/

/-- C3: on a freshly constructed (never fitted) adapter every `transform`,
`predict` and `score` call fails with a not-fitted error, for any input: in
the new module `check_is_fitted` raises `NotFittedError` in `transform` (and
therefore in `score`, which calls it) and `predict` does not even exist
(`AttributeError`); in the legacy module all three methods read the missing
attribute `W_` (`AttributeError`, the class of sklearn not-fitted errors). -/
theorem C3_not_fitted_guard :
    (∀ (cfg : RFConfig) (X : Mat) (y : List ℚ),
      rfTransform cfg freshRF X = .error .notFitted ∧
      rfScore cfg freshRF X y = .error .notFitted ∧
      rfPredict cfg freshRF X = .error .notFitted) ∧
    (∀ (cfg : LegacyConfig) (seed : Option Nat) (cs : ClfSlot) (X : Mat) (y : List ℚ),
      legacyTransform cfg (freshLegacy seed cs) X = .error .notFitted ∧
      legacyPredict cfg (freshLegacy seed cs) X = .error .notFitted ∧
      legacyScore cfg (freshLegacy seed cs) X y = .error .notFitted) :=
  ⟨fun _ _ _ => ⟨rfl, rfl, rfl⟩, fun _ _ _ _ _ => ⟨rfl, rfl, rfl⟩⟩

/-! ### C2 — the feature-map formula, identical at fit and inference time -/

/-- C2: for every fitted adapter, `transform(X) = nonlinearity(X · Wᵗ + b)`
with the stored `W`, `b` and nonlinearity, and the fit-time path computes the
representation with the identical formula.  In the new module both paths are
literally `nonlinearity(np.dot(X, W_.T) + b_)`.  In the legacy module both
paths are `nonlinearity(X @ W_)` with the stored `W_`; since the stored `W_`
is the transpose `J.T` of the conceptual `(width, n_features)` weight matrix
`J` and there is no bias, this too equals `nonlinearity(X · Jᵗ + 0)`. -/
theorem C2_feature_map_formula :
    (∀ (cfg : RFConfig) (s : RFState) (X W : Mat) (b : ℚ),
      s.W_ = some W → s.b_ = some b →
      rfTransform cfg s X = .ok (rfMap cfg.nonlinearity X W b)) ∧
    (∀ (cfg : RFConfig) (s : RFState) (X : Mat) (g : GState),
      (rfFitTransform cfg s X g).1.H_ =
        some (rfMap cfg.nonlinearity X
          ((rfFitTransform cfg s X g).1.W_.getD [])
          ((rfFitTransform cfg s X g).1.b_.getD 0)) ∧
      rfTransform cfg (rfFitTransform cfg s X g).1 X =
        .ok ((rfFitTransform cfg s X g).1.H_.getD [])) ∧
    (∀ (cfg : LegacyConfig) (s : LegacyState) (X W : Mat),
      s.W_ = some W →
      legacyTransform cfg s X = .ok (legacyMap cfg.nonlinearity X W)) ∧
    (∀ (nl : ℚ → ℚ) (X J : Mat) (M N : Nat), 0 < N → hasShapeB J M N = true →
      legacyMap nl X (transposeMat J N) = rfMap nl X J 0) := by
  refine ⟨?_, ?_, ?_, ?_⟩
  · intro cfg s X W b hW hb
    unfold rfTransform
    rw [hW, hb]
  · intro cfg s X g
    exact ⟨rfl, rfl⟩
  · intro cfg s X W hW
    unfold legacyTransform
    rw [hW]
  · intro nl X J M N hN hs
    unfold legacyMap rfMap
    rw [mulMat_transposeMat X J M N hN hs]
    refine List.map_congr_left (fun r _ => ?_)
    simp

/-- Witness for C2 at concrete inputs. -/
theorem C2_feature_map_formula_witness :
    rfTransform cfgEx ⟨some [[1]], some 0, none, none, none, none⟩ XEx =
      .ok (rfMap cfgEx.nonlinearity XEx [[1]] 0) ∧
    legacyMap id XEx (transposeMat [[(2 : ℚ)]] 1) = rfMap id XEx [[(2 : ℚ)]] 0 :=
  ⟨C2_feature_map_formula.1 cfgEx ⟨some [[1]], some 0, none, none, none, none⟩
      XEx [[1]] 0 rfl rfl,
   C2_feature_map_formula.2.2.2 id XEx [[(2 : ℚ)]] 1 1 (by decide) (by decide)⟩

/-! ### Characterizing `fit` -/

/-- The weight matrix the new-module `fit` generates for input `X` from RNG
state `g`. -/
def rfW (cfg : RFConfig) (X : Mat) (g : GState) : Mat :=
  (cfg.weightFun cfg.width (colsOf X) cfg.randomState g).1

/-- The representation the new-module `fit` computes for input `X`. -/
def rfH (cfg : RFConfig) (X : Mat) (g : GState) : Mat :=
  rfMap cfg.nonlinearity X (rfW cfg X g) cfg.bias

/-- The state `_fit_transform` produces from estimator state `s`. -/
def rfAfterFT (cfg : RFConfig) (s : RFState) (X : Mat) (g : GState) : RFState :=
  { s with W_ := some (rfW cfg X g), b_ := some cfg.bias, H_ := some (rfH cfg X g) }

/-- The fully fitted state a successful new-module `fit` produces. -/
def rfAfterFit (cfg : RFConfig) (X : Mat) (y : List ℚ) (g : GState) : RFState :=
  ⟨some (rfW cfg X g), some cfg.bias, some (rfH cfg X g),
    some (cfg.clf.coefF (rfH cfg X g) y), some (cfg.clf.interceptF (rfH cfg X g) y),
    some (rfH cfg X g, y)⟩

/-- `_fit_transform` in closed form. -/
theorem rfFitTransform_eq (cfg : RFConfig) (s : RFState) (X : Mat) (g : GState) :
    rfFitTransform cfg s X g =
      (rfAfterFT cfg s X g, (cfg.weightFun cfg.width (colsOf X) cfg.randomState g).2) := rfl

/-- `fit` of the new module in closed form: the weight matrix, bias and
representation are always stored; the classifier attributes only when the
inner classifier accepts the data. -/
theorem rfFit_eq (cfg : RFConfig) (s : RFState) (X : Mat) (y : List ℚ) (g : GState) :
    rfFit cfg s X y g =
      (if cfg.clf.validateB (rfH cfg X g) y then
        (rfAfterFit cfg X y g,
          (cfg.weightFun cfg.width (colsOf X) cfg.randomState g).2, .ok ())
      else
        (rfAfterFT cfg s X g,
          (cfg.weightFun cfg.width (colsOf X) cfg.randomState g).2,
          .error .valueError)) := rfl

/-! ### C6 — fit/transform consistency -/

/-- C6: after a successful `fit(X, y)`, `transform(X)` on the same input
returns exactly the representation computed internally during fitting — in
the new module the stored `H_`, in the legacy module the matrix the inner
classifier was fitted on — because the same `W`, `b` and nonlinearity are
reused. -/
theorem C6_fit_transform_consistency :
    (∀ (cfg : RFConfig) (s : RFState) (X : Mat) (y : List ℚ) (g : GState)
      (t : RFState) (g' : GState),
      rfFit cfg s X y g = (t, g', .ok ()) →
      ∃ H, t.H_ = some H ∧ rfTransform cfg t X = .ok H) ∧
    (∀ (F : Stream') (expQ : ℚ → ℚ) (mk : Nat → SkClf) (cfg : LegacyConfig)
      (s : LegacyState) (X : Mat) (y : List ℚ) (g : GState)
      (t : LegacyState) (g' : GState),
      legacyFit F expQ mk cfg s X y g = (t, g', .ok ()) →
      ∃ c H, t.clfS = .inst c (some (H, y)) ∧ legacyTransform cfg t X = .ok H) := by
  constructor
  · intro cfg s X y g t g' h
    rw [rfFit_eq] at h
    split at h
    · rw [Prod.mk.injEq, Prod.mk.injEq] at h
      obtain ⟨h1, -, -⟩ := h
      subst h1
      exact ⟨rfH cfg X g, rfl, rfl⟩
    · rw [Prod.mk.injEq, Prod.mk.injEq] at h
      exact Except.noConfusion h.2.2
  · intro F expQ mk cfg s X y g t g' h
    unfold legacyFit at h
    by_cases hxy : X.length ≠ y.length
    · rw [if_pos hxy] at h
      rw [Prod.mk.injEq, Prod.mk.injEq] at h
      exact Except.noConfusion h.2.2
    · rw [if_neg hxy] at h
      dsimp only at h
      repeat' split at h
      all_goals rw [Prod.mk.injEq, Prod.mk.injEq] at h
      all_goals first
        | exact Except.noConfusion h.2.2
        | (obtain ⟨h1, -, -⟩ := h; subst h1; exact ⟨_, _, rfl, rfl⟩)

/-- Witness for C6 at concrete inputs: a successful fit of the new-module
adapter, whose `transform` reproduces the stored representation. -/
theorem C6_fit_transform_consistency_witness :
    ∃ H, (rfFit cfgEx freshRF XEx yEx gEx).1.H_ = some H ∧
      rfTransform cfgEx (rfFit cfgEx freshRF XEx yEx gEx).1 XEx = Except.ok H :=
  C6_fit_transform_consistency.1 cfgEx freshRF XEx yEx gEx _ _ rfl

/-! ### C5 — determinism of every seeded generator -/

/-- The value of a `V1_inspired_weights_for_center` call with an integer seed
does not depend on the incoming global RNG state, because the function starts
by reseeding. -/
theorem V1_for_center_seeded_const (F : Stream') (expQ : ℚ → ℚ) (cholF : Mat → Mat)
    (N : Nat) (t l : ℚ) (m : ℚ × ℚ) (k : Nat) (gA gB : GState) :
    (V1_inspired_weights_for_center F expQ cholF N t l m (some k) gA).1 =
      (V1_inspired_weights_for_center F expQ cholF N t l m (some k) gB).1 := by
  unfold V1_inspired_weights_for_center
  cases V1_inspired_kernel_matrix expQ N t l m <;> rfl

/-- The matrix part of the seeded `V1_inspired_weights` loop does not depend
on the global RNG state that is threaded through it. -/
theorem V1_foldl_fst_const (F : Stream') (expQ : ℚ → ℚ) (cholF : Mat → Mat)
    (N : Nat) (t l : ℚ) (k : Nat) (cs : List (ℚ × ℚ)) :
    ∀ (acc : Except PyErr Mat) (gA gB : GState),
      (cs.foldl (V1_step F expQ cholF N t l (some k)) (acc, gA)).1 =
        (cs.foldl (V1_step F expQ cholF N t l (some k)) (acc, gB)).1 := by
  induction cs with
  | nil => intro acc gA gB; rfl
  | cons c cs ih =>
      intro acc gA gB
      simp only [List.foldl_cons]
      cases acc with
      | error e => exact ih (.error e) _ _
      | ok rows =>
          have hv := V1_for_center_seeded_const F expQ cholF N t l c k gA gB
          rcases h1 : V1_inspired_weights_for_center F expQ cholF N t l c (some k) gA
            with ⟨va, ga⟩
          rcases h2 : V1_inspired_weights_for_center F expQ cholF N t l c (some k) gB
            with ⟨vb, gb⟩
          rw [h1, h2] at hv
          simp only at hv
          subst hv
          cases va with
          | error e =>
              show ((cs.foldl _ (V1_step F expQ cholF N t l (some k) (.ok rows, gA) c)).1 = _)
              rw [show V1_step F expQ cholF N t l (some k) (.ok rows, gA) c = (.error e, ga) by
                    simp [V1_step, h1],
                  show V1_step F expQ cholF N t l (some k) (.ok rows, gB) c = (.error e, gb) by
                    simp [V1_step, h2]]
              exact ih (.error e) ga gb
          | ok w =>
              rw [show V1_step F expQ cholF N t l (some k) (.ok rows, gA) c = (.ok (rows ++ [w]), ga) by
                    simp [V1_step, h1],
                  show V1_step F expQ cholF N t l (some k) (.ok rows, gB) c = (.ok (rows ++ [w]), gb) by
                    simp [V1_step, h2]]
              exact ih (.ok (rows ++ [w])) ga gb

/-- C5: every supported weight generator, called with a fixed integer seed
and otherwise identical arguments, returns the same matrix on any two
invocations (i.e. from any two global RNG states): each generator begins by
reseeding the global RNG with the given seed, so its draws depend only on the
seed.  Covers the legacy unimodal, white-noise and identity generators and
the new-module classical, band-limited (haltere) and receptive-field (V1)
generators. -/
theorem C5_seeded_determinism :
    (∀ (F : Stream') (expQ : ℚ → ℚ) (M N k : Nat) (gA gB : GState),
      (random_feature_matrix F expQ M N .unimodal (some k) gA).1 =
        (random_feature_matrix F expQ M N .unimodal (some k) gB).1 ∧
      (random_feature_matrix F expQ M N .whiteNoise (some k) gA).1 =
        (random_feature_matrix F expQ M N .whiteNoise (some k) gB).1 ∧
      (random_feature_matrix F expQ M N .identity (some k) gA).1 =
        (random_feature_matrix F expQ M N .identity (some k) gB).1) ∧
    (∀ (F : Stream') (sqrtQ : ℚ → ℚ) (dftM : Nat → CMat) (M N k : Nat) (gA gB : GState),
      (classical_weights F sqrtQ dftM M N (some k) gA).1 =
        (classical_weights F sqrtQ dftM M N (some k) gB).1) ∧
    (∀ (F : Stream') (sqrtQ : ℚ → ℚ) (dftM : Nat → CMat) (M N lowcut highcut k : Nat)
      (gA gB : GState),
      (haltere_inspired_weights F sqrtQ dftM M N lowcut highcut (some k) gA).1 =
        (haltere_inspired_weights F sqrtQ dftM M N lowcut highcut (some k) gB).1) ∧
    (∀ (F : Stream') (expQ : ℚ → ℚ) (cholF : Mat → Mat) (M N : Nat) (t l : ℚ) (k : Nat)
      (gA gB : GState),
      (V1_inspired_weights F expQ cholF M N t l (some k) gA).1 =
        (V1_inspired_weights F expQ cholF M N t l (some k) gB).1) := by
  refine ⟨fun F expQ M N k gA gB => ⟨rfl, rfl, rfl⟩, fun _ _ _ _ _ _ _ _ => rfl, ?_, ?_⟩
  · intro F sqrtQ dftM M N lowcut highcut k gA gB
    unfold haltere_inspired_weights
    dsimp only
    split <;> rfl
  · intro F expQ cholF M N t l k gA gB
    exact V1_foldl_fst_const F expQ cholF N t l k _ (.ok []) _ _

/-! ### C7 — refitting -/

/-- C7 (amended): refitting the new-module adapter succeeds whenever the
inner classifier accepts the data, and the resulting fitted state is
regenerated from scratch — it is the same whatever the previous state was,
with `W_` freshly produced by the weight function.  Refitting the legacy
adapter, whose `clf` attribute already holds a constructed classifier
instance after the first fit, instead fails with a `TypeError`, because
`fit` calls `self.clf(**self.clf_args)` on that instance. -/
theorem C7_refit_behaviour :
    (∀ (cfg : RFConfig) (s1 s2 : RFState) (X : Mat) (y : List ℚ) (g : GState)
      (t1 t2 : RFState) (g1 g2 : GState),
      rfFit cfg s1 X y g = (t1, g1, .ok ()) → rfFit cfg s2 X y g = (t2, g2, .ok ()) →
      t1 = t2 ∧ g1 = g2 ∧ t1.W_ = some (rfW cfg X g)) ∧
    (∀ (F : Stream') (expQ : ℚ → ℚ) (mk : Nat → SkClf) (cfg : LegacyConfig)
      (s : LegacyState) (X : Mat) (y : List ℚ) (g : GState) (c : SkClf)
      (fd : Option (Mat × List ℚ)),
      s.clfS = .inst c fd → X.length = y.length →
      (legacyFit F expQ mk cfg s X y g).2.2 = .error .typeError) := by
  constructor
  · intro cfg s1 s2 X y g t1 t2 g1 g2 h1 h2
    rw [rfFit_eq] at h1 h2
    by_cases hv : cfg.clf.validateB (rfH cfg X g) y
    · rw [if_pos hv] at h1 h2
      rw [Prod.mk.injEq, Prod.mk.injEq] at h1 h2
      obtain ⟨ht1, hg1, -⟩ := h1
      obtain ⟨ht2, hg2, -⟩ := h2
      subst ht1; subst ht2; subst hg1; subst hg2
      exact ⟨rfl, rfl, rfl⟩
    · rw [if_neg hv] at h1
      rw [Prod.mk.injEq, Prod.mk.injEq] at h1
      exact absurd h1.2.2 (fun hh => Except.noConfusion hh)
  · intro F expQ mk cfg s X y g c fd hcs hxy
    unfold legacyFit
    rw [if_neg (by simp [hxy])]
    dsimp only
    rw [hcs]

/-- Counterexample for C7 as stated: a successful first fit of the legacy
adapter, after which the second `fit` call on the same data fails with a
`TypeError` instead of succeeding. -/
theorem C7_counterexample :
    (legacyFit FEx id mkSVCEx legacyCfgEx (freshLegacy (some 5) .noClf) XEx yEx gEx).2.2 =
      .ok () ∧
    (legacyFit FEx id mkSVCEx legacyCfgEx
        (legacyFit FEx id mkSVCEx legacyCfgEx (freshLegacy (some 5) .noClf) XEx yEx gEx).1
        XEx yEx gEx).2.2 = .error .typeError :=
  ⟨rfl, rfl⟩

/-- Witness for C7 at concrete inputs: two new-module fits from different
prior states produce the same fitted state. -/
theorem C7_refit_behaviour_witness :
    (rfFit cfgEx freshRF XEx yEx gEx).1 =
      (rfFit cfgEx ⟨some [[5]], some 7, none, none, none, none⟩ XEx yEx gEx).1 :=
  (C7_refit_behaviour.1 cfgEx freshRF ⟨some [[5]], some 7, none, none, none, none⟩
    XEx yEx gEx _ _ _ _ rfl rfl).1

/-! ### C4 — the dimension-mismatch guard -/

/-- C4 (amended): the legacy `fit` checks `X.shape[0] != y.shape[0]` first
and raises `ValueError('dimension mismatch')` with the adapter state and the
global RNG untouched — the weight generator is never invoked.  The
new-module `fit` performs no such check of its own: it always generates and
stores the weight matrix, and a mismatch only surfaces as the inner
classifier's own validation error afterwards. -/
theorem C4_dimension_mismatch_guard :
    (∀ (F : Stream') (expQ : ℚ → ℚ) (mk : Nat → SkClf) (cfg : LegacyConfig)
      (s : LegacyState) (X : Mat) (y : List ℚ) (g : GState),
      X.length ≠ y.length →
      legacyFit F expQ mk cfg s X y g = (s, g, .error .valueError)) ∧
    (∀ (cfg : RFConfig) (s : RFState) (X : Mat) (y : List ℚ) (g : GState),
      (rfFit cfg s X y g).1.W_ = some (rfW cfg X g) ∧
      (cfg.clf.validateB (rfH cfg X g) y = false →
        (rfFit cfg s X y g).2.2 = .error .valueError)) := by
  constructor
  · intro F expQ mk cfg s X y g hxy
    unfold legacyFit
    rw [if_pos hxy]
  · intro cfg s X y g
    constructor
    · rw [rfFit_eq]
      by_cases hv : cfg.clf.validateB (rfH cfg X g) y
      · rw [if_pos hv]; rfl
      · rw [if_neg hv]; rfl
    · intro hv
      rw [rfFit_eq, if_neg (by simp [hv])]

/-- Counterexample for C4 as stated: feeding the new-module adapter two
samples and one label does fail, but only after the weight generator has run
and the weight matrix has been stored — the adapter's state is changed. -/
theorem C4_counterexample :
    ([[1], [2]] : Mat).length ≠ yEx.length ∧
    (rfFit cfgEx freshRF [[1], [2]] yEx gEx).2.2 = .error .valueError ∧
    (rfFit cfgEx freshRF [[1], [2]] yEx gEx).1.W_ = some [[1]] :=
  ⟨by decide, rfl, rfl⟩

/-- Witness for C4 at concrete inputs: the legacy guard fires with the state
unchanged, and the new-module fit stores `W_` even on mismatched data. -/
theorem C4_dimension_mismatch_guard_witness :
    legacyFit FEx id mkSVCEx legacyCfgEx (freshLegacy (some 5) .noClf) [[1], [2]] yEx gEx =
      (freshLegacy (some 5) .noClf, gEx, .error .valueError) ∧
    (rfFit cfgEx freshRF [[(3 : ℚ)], [4]] yEx gEx).1.W_ = some (rfW cfgEx [[(3 : ℚ)], [4]] gEx) :=
  ⟨C4_dimension_mismatch_guard.1 FEx id mkSVCEx legacyCfgEx
      (freshLegacy (some 5) .noClf) [[1], [2]] yEx gEx (by decide),
   (C4_dimension_mismatch_guard.2 cfgEx freshRF [[(3 : ℚ)], [4]] yEx gEx).1⟩

/-! ### Shape lemmas for the generators -/

/-- Shape of a complex matrix. -/
abbrev cmatShape (A : CMat) (m n : Nat) : Prop := A.length = m ∧ ∀ r ∈ A, r.length = n

/-- The spectral generators share the pipeline
`rand ↦ (rand · dft).real`, rows normalized; this lemma gives its shape. -/
theorem spectral_pipeline_shape (rand : CMat) (dft : CMat) (sqrtQ : ℚ → ℚ)
    (M N : Nat) (hr : rand.length = M) (hN : 0 < N) (hdft : cmatShape dft N N) :
    hasShapeB ((realPart (cMulMat rand dft)).map
      (fun r => r.map (fun x => x / stdRow sqrtQ r))) M N = true := by
  obtain ⟨hd1, hd2⟩ := hdft
  have hcc : ccolsOf dft = N := headD_length dft N (by rw [hd1]; exact hN) hd2
  rw [hasShapeB_iff]
  constructor
  · simp [realPart, cMulMat, hr]
  · intro r hrm
    simp only [List.mem_map] at hrm
    obtain ⟨r0, hr0, rfl⟩ := hrm
    simp only [realPart, cMulMat, List.mem_map] at hr0
    obtain ⟨r1, ⟨r2, -, rfl⟩, rfl⟩ := hr0
    simp [hcc]

/-- `classical_weights` returns shape `(M, N)`. -/
theorem classical_weights_shape (F : Stream') (sqrtQ : ℚ → ℚ) (dftM : Nat → CMat)
    (M N : Nat) (rs : Option Nat) (g : GState) (hN : 0 < N)
    (hdft : cmatShape (dftM N) N N) :
    hasShapeB (classical_weights F sqrtQ dftM M N rs g).1 M N = true := by
  unfold classical_weights
  exact spectral_pipeline_shape _ _ sqrtQ M N (by simp) hN hdft

/-- The squeezed `(M, B, 1)` noise broadcasts into the `(M, B)` band slice
exactly when the band is not of width 1 with several rows. -/
theorem haltere_bcast_iff (M B : Nat) :
    bcastInto (squeezeDims [M, B, 1]) [M, B] = true ↔ (B = 1 → M = 1) := by
  by_cases hM : M = 1 <;> by_cases hB : B = 1 <;>
    simp [squeezeDims, bcastInto, hM, hB]

/-- `haltere_inspired_weights` returns shape `(M, N)` whenever the squeezed
noise broadcasts into the band slice. -/
theorem haltere_weights_shape (F : Stream') (sqrtQ : ℚ → ℚ) (dftM : Nat → CMat)
    (M N lowcut highcut : Nat) (rs : Option Nat) (g : GState) (hN : 0 < N)
    (hdft : cmatShape (dftM N) N N) (hok : highcut - lowcut = 1 → M = 1) :
    ∃ W, (haltere_inspired_weights F sqrtQ dftM M N lowcut highcut rs g).1 = .ok W ∧
      hasShapeB W M N = true := by
  unfold haltere_inspired_weights
  dsimp only
  rw [if_pos ((haltere_bcast_iff M (highcut - lowcut)).mpr hok)]
  exact ⟨_, rfl, spectral_pipeline_shape _ _ sqrtQ M N (by simp) hN hdft⟩

/-- With a band of width 1 and more than one row, the bare `.squeeze()`
collapses the noise to shape `(M,)` and the slice assignment raises a
broadcast error. -/
theorem haltere_band1_error (F : Stream') (sqrtQ : ℚ → ℚ) (dftM : Nat → CMat)
    (M N lowcut highcut : Nat) (rs : Option Nat) (g : GState)
    (hB : highcut - lowcut = 1) (hM : M ≠ 1) :
    (haltere_inspired_weights F sqrtQ dftM M N lowcut highcut rs g).1 =
      .error .broadcastError := by
  unfold haltere_inspired_weights
  dsimp only
  rw [if_neg (fun hc => hM ((haltere_bcast_iff M (highcut - lowcut)).mp hc hB))]

/-- `addBroadcast` on two square matrices of the same positive size succeeds
and preserves the row count. -/
theorem addBroadcast_eq_shape (A B : Mat) (n : Nat) (hA : A.length = n)
    (hCA : colsOf A = n) (hB : B.length = n) (hCB : colsOf B = n) :
    ∃ K, addBroadcast A B = .ok K ∧ K.length = n := by
  unfold addBroadcast
  dsimp only
  rw [hA, hCA, hB, hCB]
  simp

/-- For a perfect-square `N` the kernel matrix is built successfully and has
`N` rows. -/
theorem V1_kernel_square (expQ : ℚ → ℚ) (N : Nat) (hsq : Nat.sqrt N * Nat.sqrt N = N)
    (hN : 0 < N) (t l : ℚ) (m : ℚ × ℚ) :
    ∃ K, V1_inspired_kernel_matrix expQ N t l m = .ok K ∧ K.length = N := by
  have hside : gridSide N * gridSide N = N := by
    unfold gridSide
    rw [natSqrt_eq_sqrt, if_pos hsq]
    exact hsq
  have hgrid : (gridPts N).length = N := by simp [gridPts, hside]
  have hK0len : (V1_K0 expQ N t l m).length = N := by simp [V1_K0, hgrid]
  have hK0cols : colsOf (V1_K0 expQ N t l m) = N := by
    refine headD_length _ N (by rw [hK0len]; exact hN) ?_
    intro r hr
    simp only [V1_K0, List.mem_map] at hr
    obtain ⟨p, -, rfl⟩ := hr
    simp [hgrid]
  have hElen : (smulMat (1 / 100000) (eyeQ N)).length = N := by simp [smulMat, eyeQ]
  have hEcols : colsOf (smulMat (1 / 100000) (eyeQ N)) = N := by
    refine headD_length _ N (by rw [hElen]; exact hN) ?_
    intro r hr
    simp only [smulMat, eyeQ, List.map_map, List.mem_map] at hr
    obtain ⟨i, -, rfl⟩ := hr
    simp
  exact addBroadcast_eq_shape _ _ N hK0len hK0cols hElen hEcols

/-- Folding the `V1_inspired_weights` loop over `cs` centers from a stack of
rows of length `N` yields, on success, `cs.length` more rows of length `N`. -/
theorem V1_foldl_shape (F : Stream') (expQ : ℚ → ℚ) (cholF : Mat → Mat)
    (N : Nat) (t l : ℚ) (rs : Option Nat)
    (hchol : ∀ A, (cholF A).length = A.length)
    (hker : ∀ m, ∃ K, V1_inspired_kernel_matrix expQ N t l m = .ok K ∧ K.length = N) :
    ∀ (cs : List (ℚ × ℚ)) (rows : Mat) (g : GState) (W : Mat) (g' : GState),
      (∀ r ∈ rows, r.length = N) →
      cs.foldl (V1_step F expQ cholF N t l rs) (.ok rows, g) = (.ok W, g') →
      W.length = rows.length + cs.length ∧ ∀ r ∈ W, r.length = N := by
  intro cs
  induction cs with
  | nil =>
      intro rows g W g' hrows h
      rw [List.foldl_nil, Prod.mk.injEq] at h
      obtain ⟨h1, -⟩ := h
      cases h1
      exact ⟨rfl, hrows⟩
  | cons c cs ih =>
      intro rows g W g' hrows h
      rw [List.foldl_cons] at h
      obtain ⟨K, hK, hKlen⟩ := hker c
      have hstep : V1_step F expQ cholF N t l rs (.ok rows, g) c =
          (.ok (rows ++ [(cholF K).map (fun r => dot r
            ((List.range N).map (fun i => F (npseedO rs g).sd ((npseedO rs g).pos + i))))]),
            advanceBy (npseedO rs g) N) := by
        simp only [V1_step, V1_inspired_weights_for_center, hK]
      rw [hstep] at h
      have hrows' : ∀ r ∈ rows ++ [(cholF K).map (fun r => dot r
          ((List.range N).map (fun i => F (npseedO rs g).sd ((npseedO rs g).pos + i))))],
          r.length = N := by
        intro r hr
        rw [List.mem_append] at hr
        rcases hr with hr | hr
        · exact hrows r hr
        · rw [List.mem_singleton] at hr
          subst hr
          simp [hchol, hKlen]
      obtain ⟨hlen, hall⟩ := ih _ _ W g' hrows' h
      refine ⟨?_, hall⟩
      rw [hlen]
      simp only [List.length_append, List.length_cons, List.length_nil]
      omega

/-- `V1_inspired_weights` returns shape `(M, N)` when it succeeds (which for
a perfect-square `N` it does, the Cholesky factorization being external). -/
theorem V1_weights_shape (F : Stream') (expQ : ℚ → ℚ) (cholF : Mat → Mat)
    (M N : Nat) (t l : ℚ) (rs : Option Nat) (g : GState) (W : Mat) (g' : GState)
    (hN : 0 < N) (hsq : Nat.sqrt N * Nat.sqrt N = N)
    (hchol : ∀ A, (cholF A).length = A.length)
    (h : V1_inspired_weights F expQ cholF M N t l rs g = (.ok W, g')) :
    hasShapeB W M N = true := by
  unfold V1_inspired_weights at h
  have hsh := V1_foldl_shape F expQ cholF N t l rs hchol
    (fun m => V1_kernel_square expQ N hsq hN t l m) (V1_centers F M N (npseedO rs g))
    [] (advanceBy (npseedO rs g) (2 * M)) W g' (by intro r hr; simp at hr) h
  rw [hasShapeB_iff]
  obtain ⟨h1, h2⟩ := hsh
  refine ⟨?_, h2⟩
  rw [h1]
  simp [V1_centers]

/-- Shape of the identity matrix. -/
theorem eyeQ_shape (N : Nat) : hasShapeB (eyeQ N) N N = true := by
  rw [hasShapeB_iff]
  constructor
  · simp [eyeQ]
  · intro r hr
    simp only [eyeQ, List.mem_map] at hr
    obtain ⟨i, -, rfl⟩ := hr
    simp

/-! ### C1 — generator output shapes -/

/-- C1 (amended): the new-module generators return a matrix of shape
`(width, n_features)` — `classical_weights` always, `haltere_inspired_weights`
whenever its squeezed band noise broadcasts into the band slice (for a band
of width 1 with `width ≠ 1` it instead raises a broadcast error, because of
the bare `.squeeze()`), and `V1_inspired_weights` for a perfect-square
`n_features`.  The legacy `random_feature_matrix` instead returns the
transpose `J.T`, of shape `(n_features, width)`, for the unimodal and
white-noise variants, and the `n_features × n_features` identity for the
`None`/identity variant (its `width` argument being ignored there). -/
theorem C1_generator_shapes :
    (∀ (F : Stream') (sqrtQ : ℚ → ℚ) (dftM : Nat → CMat) (M N : Nat)
      (rs : Option Nat) (g : GState), 0 < N → cmatShape (dftM N) N N →
      hasShapeB (classical_weights F sqrtQ dftM M N rs g).1 M N = true) ∧
    (∀ (F : Stream') (sqrtQ : ℚ → ℚ) (dftM : Nat → CMat) (M N lowcut highcut : Nat)
      (rs : Option Nat) (g : GState), 0 < N → lowcut ≤ highcut → highcut ≤ N →
      cmatShape (dftM N) N N → (highcut - lowcut = 1 → M = 1) →
      ∃ W, (haltere_inspired_weights F sqrtQ dftM M N lowcut highcut rs g).1 = .ok W ∧
        hasShapeB W M N = true) ∧
    (∀ (F : Stream') (sqrtQ : ℚ → ℚ) (dftM : Nat → CMat) (M N lowcut highcut : Nat)
      (rs : Option Nat) (g : GState), highcut - lowcut = 1 → M ≠ 1 →
      (haltere_inspired_weights F sqrtQ dftM M N lowcut highcut rs g).1 =
        .error .broadcastError) ∧
    (∀ (F : Stream') (expQ : ℚ → ℚ) (cholF : Mat → Mat) (M N : Nat) (t l : ℚ)
      (rs : Option Nat) (g : GState) (W : Mat) (g' : GState),
      0 < N → Nat.sqrt N * Nat.sqrt N = N → (∀ A, (cholF A).length = A.length) →
      V1_inspired_weights F expQ cholF M N t l rs g = (.ok W, g') →
      hasShapeB W M N = true) ∧
    (∀ (F : Stream') (expQ : ℚ → ℚ) (M N : Nat) (rs : Option Nat) (g : GState),
      hasShapeB (random_feature_matrix F expQ M N .unimodal rs g).1 N M = true ∧
      hasShapeB (random_feature_matrix F expQ M N .whiteNoise rs g).1 N M = true ∧
      hasShapeB (random_feature_matrix F expQ M N .identity rs g).1 N N = true) := by
  refine ⟨?_, ?_, ?_, ?_, ?_⟩
  · intro F sqrtQ dftM M N rs g hN hdft
    exact classical_weights_shape F sqrtQ dftM M N rs g hN hdft
  · intro F sqrtQ dftM M N lowcut highcut rs g hN _ _ hdft hok
    exact haltere_weights_shape F sqrtQ dftM M N lowcut highcut rs g hN hdft hok
  · intro F sqrtQ dftM M N lowcut highcut rs g hB hM
    exact haltere_band1_error F sqrtQ dftM M N lowcut highcut rs g hB hM
  · intro F expQ cholF M N t l rs g W g' hN hsq hchol h
    exact V1_weights_shape F expQ cholF M N t l rs g W g' hN hsq hchol h
  · intro F expQ M N rs g
    refine ⟨hasShapeB_transposeMat _ M N (by simp),
      hasShapeB_transposeMat _ M N (by simp), ?_⟩
    have he : (random_feature_matrix F expQ M N .identity rs g).1 = eyeQ N := by
      simpa [random_feature_matrix] using transpose_eyeQ N
    rw [he]
    exact eyeQ_shape N

/-- Counterexample for C1 as stated: the legacy white-noise generator at
`width = 2`, `n_features = 3` returns a matrix of shape `(3, 2)`, not
`(2, 3)`. -/
theorem C1_counterexample :
    hasShapeB (random_feature_matrix FEx id 2 3 .whiteNoise (some 0) gEx).1 2 3 = false ∧
    hasShapeB (random_feature_matrix FEx id 2 3 .whiteNoise (some 0) gEx).1 3 2 = true :=
  ⟨rfl, rfl⟩

/-- A concrete stand-in for scipy's DFT matrix of the declared `N × N`
shape. -/
def dftEx : Nat → CMat :=
  fun n => (List.range n).map (fun _ => (List.range n).map (fun _ => ((1 : ℚ), (0 : ℚ))))

/-- Witness for C1 at concrete inputs (the band-limited generator both on a
broadcastable band, where it returns the declared shape, and on a width-1
band with two rows, where it raises). -/
theorem C1_generator_shapes_witness :
    hasShapeB (classical_weights FEx id dftEx 2 1 (some 3) gEx).1 2 1 = true ∧
    (∃ W, (haltere_inspired_weights FEx id dftEx 2 2 0 2 (some 3) gEx).1 = .ok W ∧
      hasShapeB W 2 2 = true) ∧
    (haltere_inspired_weights FEx id dftEx 2 1 0 1 (some 3) gEx).1 =
      .error .broadcastError ∧
    (∃ W g', V1_inspired_weights FEx id id 1 1 1 1 (some 0) gEx = (.ok W, g') ∧
      hasShapeB W 1 1 = true) ∧
    hasShapeB (random_feature_matrix FEx id 2 3 .unimodal (some 0) gEx).1 3 2 = true :=
  ⟨C1_generator_shapes.1 FEx id dftEx 2 1 (some 3) gEx (by decide) (by decide),
   C1_generator_shapes.2.1 FEx id dftEx 2 2 0 2 (some 3) gEx (by decide) (by decide)
     (by decide) (by decide) (by decide),
   C1_generator_shapes.2.2.1 FEx id dftEx 2 1 0 1 (some 3) gEx (by decide) (by decide),
   ⟨_, _, rfl, C1_generator_shapes.2.2.2.1 FEx id id 1 1 1 1 (some 0) gEx _ _
     (by decide) (by decide) (fun _ => rfl) rfl⟩,
   (C1_generator_shapes.2.2.2.2 FEx id 2 3 (some 0) gEx).1⟩

/-! ### C9 — non-square `n_features` in the receptive-field generator -/

/-- An exception raised before the loop body aborts the whole
`V1_inspired_weights` loop unchanged. -/
theorem V1_foldl_error (F : Stream') (expQ : ℚ → ℚ) (cholF : Mat → Mat)
    (N : Nat) (t l : ℚ) (rs : Option Nat) (cs : List (ℚ × ℚ)) :
    ∀ (e : PyErr) (g : GState),
      cs.foldl (V1_step F expQ cholF N t l rs) (.error e, g) = (.error e, g) := by
  induction cs with
  | nil => intro e g; rfl
  | cons c cs ih =>
      intro e g
      rw [List.foldl_cons, show V1_step F expQ cholF N t l rs (.error e, g) c = (.error e, g)
        from rfl]
      exact ih e g

/-- For a non-square `N` the kernel construction fails: the grid has
`(⌈√N⌉)² > N` points, so adding the `N × N` jitter matrix is an invalid
broadcast. -/
theorem V1_kernel_nonsquare (expQ : ℚ → ℚ) (N : Nat)
    (hns : Nat.sqrt N * Nat.sqrt N ≠ N) (t l : ℚ) (m : ℚ × ℚ) :
    V1_inspired_kernel_matrix expQ N t l m = .error .broadcastError := by
  have hsq0 : Nat.sqrt 0 = 0 := by simp
  have hsq1 : Nat.sqrt 1 = 1 := by simp
  have hN2 : 2 ≤ N := by
    rcases N with _ | _ | n
    · simp at hns
    · simp at hns
    · omega
  have hs1 : 1 ≤ Nat.sqrt N := by
    have h4 := Nat.sqrt_le_sqrt (show 1 ≤ N by omega)
    omega
  have hside : gridSide N = Nat.sqrt N + 1 := by
    unfold gridSide
    rw [natSqrt_eq_sqrt, if_neg hns]
  have hG : N < gridSide N * gridSide N := by
    rw [hside]
    have h := Nat.lt_succ_sqrt' N
    rw [pow_two, Nat.succ_eq_add_one] at h
    exact h
  have hgrid : (gridPts N).length = gridSide N * gridSide N := by simp [gridPts]
  have hgpos : 0 < (gridPts N).length := by
    rw [hgrid, hside]
    exact Nat.mul_pos (by omega) (by omega)
  have hK0len : (V1_K0 expQ N t l m).length = gridSide N * gridSide N := by
    simp [V1_K0, hgrid]
  have hK0cols : colsOf (V1_K0 expQ N t l m) = gridSide N * gridSide N := by
    refine headD_length _ _ (by rw [hK0len]; omega) ?_
    intro r hr
    simp only [V1_K0, List.mem_map] at hr
    obtain ⟨p, -, rfl⟩ := hr
    simp [hgrid]
  have hElen : (smulMat (1 / 100000) (eyeQ N)).length = N := by simp [smulMat, eyeQ]
  have hEcols : colsOf (smulMat (1 / 100000) (eyeQ N)) = N := by
    refine headD_length _ N (by omega) ?_
    intro r hr
    simp only [smulMat, eyeQ, List.map_map, List.mem_map] at hr
    obtain ⟨i, -, rfl⟩ := hr
    simp
  unfold V1_inspired_kernel_matrix addBroadcast
  dsimp only
  rw [hK0len, hK0cols, hElen, hEcols]
  rw [if_neg ?hcond]
  case hcond =>
    simp only [Bool.and_eq_true, Bool.or_eq_true, beq_iff_eq]
    omega

/-- C9 (amended): a non-square `n_features` is not silently truncated: the
grid side is `⌈√N⌉` (the length of `np.arange(np.sqrt(N))`), so the kernel
is `G × G` with `G = (⌈√N⌉)² > N`, and adding the `N × N` jitter matrix
raises a broadcast error; `V1_inspired_weights` therefore fails on its first
row instead of returning a result. -/
theorem C9_nonsquare_error :
    (∀ (expQ : ℚ → ℚ) (N : Nat), Nat.sqrt N * Nat.sqrt N ≠ N →
      ∀ (t l : ℚ) (m : ℚ × ℚ),
      V1_inspired_kernel_matrix expQ N t l m = .error .broadcastError) ∧
    (∀ (F : Stream') (expQ : ℚ → ℚ) (cholF : Mat → Mat) (M N : Nat) (t l : ℚ)
      (rs : Option Nat) (g : GState), Nat.sqrt N * Nat.sqrt N ≠ N → 0 < M →
      (V1_inspired_weights F expQ cholF M N t l rs g).1 = .error .broadcastError) := by
  constructor
  · intro expQ N hns t l m
    exact V1_kernel_nonsquare expQ N hns t l m
  · intro F expQ cholF M N t l rs g hns hM
    unfold V1_inspired_weights
    dsimp only
    cases hc : V1_centers F M N (npseedO rs g) with
    | nil =>
        have hlen : (V1_centers F M N (npseedO rs g)).length = M := by simp [V1_centers]
        rw [hc] at hlen
        simp at hlen
        exfalso
        omega
    | cons c cs =>
        rw [List.foldl_cons]
        have hstep : V1_step F expQ cholF N t l rs
            (.ok [], advanceBy (npseedO rs g) (2 * M)) c =
            (.error .broadcastError,
              npseedO rs (advanceBy (npseedO rs g) (2 * M))) := by
          simp only [V1_step, V1_inspired_weights_for_center,
            V1_kernel_nonsquare expQ N hns t l c]
        rw [hstep, V1_foldl_error]

/-- Counterexample for C9 as stated: at the non-square `n_features = 2` the
receptive-field generator raises a broadcast error rather than returning a
(truncated) result. -/
theorem C9_counterexample :
    (V1_inspired_weights FEx id id 1 2 1 1 (some 0) gEx).1 = .error .broadcastError ∧
    V1_inspired_kernel_matrix id 2 1 1 ((0 : ℚ), (0 : ℚ)) = .error .broadcastError :=
  ⟨rfl, rfl⟩

/-- Witness for C9 at concrete inputs. -/
theorem C9_nonsquare_error_witness :
    V1_inspired_kernel_matrix id 2 2 3 ((1 : ℚ), (0 : ℚ)) = .error .broadcastError ∧
    (V1_inspired_weights FEx id id 3 2 1 1 (some 1) gEx).1 = .error .broadcastError :=
  ⟨C9_nonsquare_error.1 id 2 (by simp only [← natSqrt_eq_sqrt]; decide) 2 3 ((1 : ℚ), (0 : ℚ)),
   C9_nonsquare_error.2 FEx id id 3 2 1 1 (some 1) gEx
     (by simp only [← natSqrt_eq_sqrt]; decide) (by decide)⟩

/-! ### C10 — equal centers give identical rows -/

/-- The row `V1_inspired_weights` produces for center `m` under seed `k`:
because `V1_inspired_weights_for_center` reseeds the global RNG with `k`
before drawing, this is independent of the RNG state it is called at. -/
def V1_rowOf (F : Stream') (expQ : ℚ → ℚ) (cholF : Mat → Mat) (N : Nat) (t l : ℚ)
    (k : Nat) (m : ℚ × ℚ) : List ℚ :=
  match (V1_inspired_weights_for_center F expQ cholF N t l m (some k) ⟨k, 0, 0⟩).1 with
  | .ok w => w
  | .error _ => []

/-- On success, the seeded `V1_inspired_weights` loop appends exactly the row
`V1_rowOf` of each center: every row depends only on its center (and the
seed), each iteration reseeding the global RNG identically. -/
theorem V1_foldl_ok (F : Stream') (expQ : ℚ → ℚ) (cholF : Mat → Mat)
    (N : Nat) (t l : ℚ) (k : Nat) (cs : List (ℚ × ℚ)) :
    ∀ (rows : Mat) (g : GState) (W : Mat) (g' : GState),
      cs.foldl (V1_step F expQ cholF N t l (some k)) (.ok rows, g) = (.ok W, g') →
      W = rows ++ cs.map (V1_rowOf F expQ cholF N t l k) := by
  induction cs with
  | nil =>
      intro rows g W g' h
      rw [List.foldl_nil, Prod.mk.injEq] at h
      obtain ⟨h1, -⟩ := h
      cases h1
      simp
  | cons c cs ih =>
      intro rows g W g' h
      rw [List.foldl_cons] at h
      rcases hv : V1_inspired_weights_for_center F expQ cholF N t l c (some k) g
        with ⟨v, g2⟩
      cases v with
      | error e =>
          rw [show V1_step F expQ cholF N t l (some k) (.ok rows, g) c = (.error e, g2) by
                simp [V1_step, hv]] at h
          rw [V1_foldl_error] at h
          rw [Prod.mk.injEq] at h
          exact absurd h.1 (fun hh => Except.noConfusion hh)
      | ok w =>
          rw [show V1_step F expQ cholF N t l (some k) (.ok rows, g) c = (.ok (rows ++ [w]), g2) by
                simp [V1_step, hv]] at h
          rw [ih _ _ W g' h]
          have hconst : (V1_inspired_weights_for_center F expQ cholF N t l c
              (some k) (⟨k, 0, 0⟩ : GState)).1 = .ok w := by
            rw [← V1_for_center_seeded_const F expQ cholF N t l c k g ⟨k, 0, 0⟩, hv]
          have hrow : V1_rowOf F expQ cholF N t l k c = w := by
            unfold V1_rowOf
            rw [hconst]
          simp [hrow]

/-- The generator samples exactly `M` centers. -/
theorem V1_centers_length (F : Stream') (M N : Nat) (g1 : GState) :
    (V1_centers F M N g1).length = M := by simp [V1_centers]

/-- C10: in `V1_inspired_weights` with an integer `random_state`, every loop
iteration reseeds the global RNG with that same value before sampling the
Gaussian-process noise, so any two rows whose sampled 2-D centers coincide
are identical vectors. -/
theorem C10_equal_centers_equal_rows (F : Stream') (expQ : ℚ → ℚ) (cholF : Mat → Mat)
    (M N : Nat) (t l : ℚ) (k : Nat) (g : GState) (W : Mat) (g' : GState)
    (hW : V1_inspired_weights F expQ cholF M N t l (some k) g = (.ok W, g'))
    (i j : Nat) (hi : i < M) (hj : j < M)
    (hc : (V1_centers F M N ⟨k, 0, g.ent⟩).getD i (0, 0) =
      (V1_centers F M N ⟨k, 0, g.ent⟩).getD j (0, 0)) :
    W.getD i [] = W.getD j [] := by
  unfold V1_inspired_weights at hW
  have hWc : W = [] ++ (V1_centers F M N (npseedO (some k) g)).map
      (V1_rowOf F expQ cholF N t l k) :=
    V1_foldl_ok F expQ cholF N t l k _ [] _ W g' hW
  rw [List.nil_append] at hWc
  have hcents : npseedO (some k) g = (⟨k, 0, g.ent⟩ : GState) := rfl
  rw [hcents] at hWc
  subst hWc
  rw [getD_map_of_lt _ _ i (0, 0) [] (by rw [V1_centers_length]; exact hi),
    getD_map_of_lt _ _ j (0, 0) [] (by rw [V1_centers_length]; exact hj), hc]

/-- Witness for C10 at concrete inputs: with `n_features = 1` both sampled
centers are `(0, 0)`, and the two output rows coincide. -/
theorem C10_equal_centers_equal_rows_witness :
    ∃ W g', V1_inspired_weights FEx id id 2 1 1 1 (some 0) gEx = (.ok W, g') ∧
      W.getD 0 [] = W.getD 1 [] :=
  ⟨_, _, rfl, C10_equal_centers_equal_rows FEx id id 2 1 1 1 0 gEx _ _ rfl 0 1
    (by decide) (by decide) rfl⟩

end StructuredRF
